import Mathlib

/-!
Verification development for the MagicFolder FUSE filesystem
(src/magic_folder.cpp): a shallow embedding of its in-memory
visibility state, classification queue, worker loop, path helpers and
FUSE handlers, together with theorems settling the specification
claims about them.

Conventions of the embedding:
* `std::unordered_set<std::string>` becomes `List String` kept
  duplicate-free through `insertS` / `eraseS`;
* `std::map<K,V>` becomes an association list (`mapLookup` / `mapSet`,
  `catLookup` / `catAppend` for the category map whose values are
  vectors);
* `std::queue<std::string>` becomes a `List String` with push at the
  back and the front at the head;
* backing-store I/O (open, unlink, rename, readdir of the real
  directory) is delegated to the host, so those results enter the
  embedding as parameters (`Except Nat Unit` carrying the host errno
  on failure, or a `List String` of enumerated names);
* timestamps and byte contents are not observable by any claim and are
  dropped.
-/

namespace MagicFolder

/-- Set-style insert for the `List String` model of `std::unordered_set`. -/
def insertS (x : String) (s : List String) : List String :=
  if x ∈ s then s else x :: s

/-- Set-style erase for the `List String` model of `std::unordered_set`. -/
def eraseS (x : String) (s : List String) : List String :=
  s.filter (fun y => y ≠ x)

/-- Lookup in the association-list model of `std::map<std::string, std::string>`. -/
def mapLookup (k : String) : List (String × String) → Option String
  | [] => none
  | (k', v) :: rest => if k' = k then some v else mapLookup k rest

/-- `m[k] = v` on the association-list model of `std::map<std::string, std::string>`. -/
def mapSet (k v : String) : List (String × String) → List (String × String)
  | [] => [(k, v)]
  | (k', v') :: rest => if k' = k then (k', v) :: rest else (k', v') :: mapSet k v rest

/-- Lookup in the model of `std::map<std::string, std::vector<std::string>>`. -/
def catLookup (k : String) : List (String × List String) → Option (List String)
  | [] => none
  | (k', v) :: rest => if k' = k then some v else catLookup k rest

/-- `m[k].push_back(f)` on the model of
`std::map<std::string, std::vector<std::string>>`: `operator[]`
default-constructs the vector when the key is absent. -/
def catAppend (k f : String) : List (String × List String) → List (String × List String)
  | [] => [(k, [f])]
  | (k', v) :: rest =>
    if k' = k then (k', v ++ [f]) :: rest else (k', v) :: catAppend k f rest

/-- The mutable members of `MagicFolderState` (magic_folder.cpp lines
52-76) that the claims observe.  `unclassified_queue` keeps the
`(filename, full_path)` projection of `FileMetadata`;
`inflight_batch` is the worker's local `batch` vector during the
window in which `queued_files` still holds the drained names. -/
structure State where
  unclassified_queue : List (String × String)
  hidden_files : List String
  categories : List (String × List String)
  file_category_map : List (String × String)
  processing_queue : List String
  queued_files : List String
  inflight_batch : List String
deriving DecidableEq

/-- The all-empty state the process starts from. -/
def initState : State := ⟨[], [], [], [], [], [], []⟩

/-- `is_ignored_file` (lines 316-318): `.DS_Store` or a name starting
with the two characters `._`. -/
def is_ignored_file (filename : String) : Bool :=
  filename == ".DS_Store" ||
    (filename.length ≥ 2 && filename.toList.take 2 == ['.', '_'])

/-- `MagicFolderState::add_to_queue` (lines 180-190): rejects ignored
names, appends metadata to `unclassified_queue` and inserts the name
into `hidden_files`. -/
def add_to_queue (filename full_path : String) (s : State) : State :=
  if is_ignored_file filename then s
  else
    { s with
      unclassified_queue := s.unclassified_queue ++ [(filename, full_path)]
      hidden_files := insertS filename s.hidden_files }

/-- `MagicFolderState::is_hidden` (lines 192-195). -/
def is_hidden (filename : String) (s : State) : Bool :=
  s.hidden_files.contains filename

/-- `MagicFolderState::enqueue_for_classification` (lines 142-168):
rejects ignored names, already classified names, and names already in
`queued_files`; otherwise pushes onto the FIFO and inserts the
in-flight marker. -/
def enqueue_for_classification (filename : String) (s : State) : State :=
  if is_ignored_file filename then s
  else if (mapLookup filename s.file_category_map).isSome then s
  else if s.queued_files.contains filename then s
  else
    { s with
      processing_queue := s.processing_queue ++ [filename]
      queued_files := insertS filename s.queued_files }

/-- `MagicFolderState::update_category` (lines 259-272): erase from
`hidden_files`, append to `categories[category]`, set
`file_category_map[filename] = category`. -/
def update_category (filename category : String) (s : State) : State :=
  { s with
    hidden_files := eraseS filename s.hidden_files
    categories := catAppend category filename s.categories
    file_category_map := mapSet filename category s.file_category_map }

/-! ### String search primitives

The C++ code uses `std::string::find` / `rfind` / `substr`; we embed
them over `List Char` (a `String` in this Lean is a list of characters
under the hood, reached through `String.toList`). -/

/-- Index of the first occurrence of character `c` in `l`
(`std::string::find(c)` restricted to a suffix is built on top). -/
def charFindIdx (c : Char) : List Char → Option Nat
  | [] => none
  | x :: xs => if x = c then some 0 else (charFindIdx c xs).map (· + 1)

/-- `std::string::find(c, start)`: first index `≥ start` holding `c`. -/
def findFrom (l : List Char) (c : Char) (start : Nat) : Option Nat :=
  (charFindIdx c (l.drop start)).map (start + ·)

/-- `std::string::rfind(c, p)`: the largest index `≤ p` holding `c`. -/
def rfindUpTo (l : List Char) (c : Char) (p : Nat) : Option Nat :=
  ((List.range (p + 1)).filter (fun i => (l.drop i).head? == some c)).getLast?

/-- `pat` occurs at the front of `l`. -/
def prefixAt (pat l : List Char) : Bool :=
  match pat, l with
  | [], _ => true
  | _ :: _, [] => false
  | x :: xs, y :: ys => x == y && prefixAt xs ys

/-- `std::string::find(pat)`: index of the first occurrence of the
substring `pat` in `l`. -/
def substrIdx (pat : List Char) : List Char → Option Nat
  | [] => if prefixAt pat [] then some 0 else none
  | x :: xs =>
    if prefixAt pat (x :: xs) then some 0 else (substrIdx pat xs).map (· + 1)

/-! ### Path helpers -/

/-- `get_real_path` (lines 279-295): if the virtual path has a second
slash (`/Category/filename` shape) the first component is discarded
and the remainder is appended to the backing root; otherwise the whole
path is appended.  Purely functional: it takes no `State`. -/
def get_real_path (backing path : String) : String :=
  match findFrom path.toList '/' 1 with
  | some i => backing ++ "/" ++ String.mk (path.toList.drop (i + 1))
  | none => backing ++ path

/-- `is_root_file` (lines 298-303): not `/` itself and no slash after
index 0. -/
def is_root_file (path : String) : Bool :=
  if path == "/" then false
  else (findFrom path.toList '/' 1).isNone

/-- `get_filename` (lines 306-313): the suffix after the last slash,
or the whole string when there is none. -/
def get_filename (path : String) : String :=
  match rfindUpTo path.toList '/' path.toList.length with
  | some i => String.mk (path.toList.drop (i + 1))
  | none => path

/-! ### Classifier RPC response handling -/

/-- The 13-character search pattern of line 242. -/
def categoryPat : List Char := '"' :: "category".toList ++ '"' :: ':' :: ' ' :: ['"']

/-- The per-file response parse of `classify_files_batch`
(lines 232-249): find the absolute path in the response, take the
enclosing `\x7b` before it and `\x7d` after it, and inside that slice
extract the value following `categoryPat`. -/
def parse_category (response full_path : List Char) : Option String :=
  match substrIdx full_path response with
  | none => none
  | some p_pos =>
    match rfindUpTo response '\x7b' p_pos, findFrom response '\x7d' p_pos with
    | some obj_start, some obj_end =>
      let obj_str := (response.drop obj_start).take (obj_end - obj_start)
      match substrIdx categoryPat obj_str with
      | none => none
      | some c_pos =>
        let c_start := c_pos + 13
        match findFrom obj_str '"' c_start with
        | none => none
        | some c_end => some (String.mk ((obj_str.drop c_start).take (c_end - c_start)))
    | _, _ => none

/-- Size of the stack buffer receiving the batch response (line 220). -/
def RESPONSE_BUFFER_SIZE : Nat := 8192

/-- Modelled from the libzmq contract of `zmq_recv` (line 221): the
return value is the byte length of the arriving message even when the
copy into the buffer was truncated to the buffer capacity, so for a
message of `msgLen` bytes the call returns `msgLen`. -/
def zmq_recv_bytes (msgLen : Nat) : Int := (msgLen : Int)

/-- Index of the NUL-terminator write `buffer[bytes] = 0` (line 224),
performed only when `bytes > 0` (line 223). -/
def nul_write_index (bytes : Int) : Option Nat :=
  if bytes > 0 then some bytes.toNat else none

/-- The terminating write stays inside the 8192-byte buffer. -/
def nul_write_in_bounds (bytes : Int) : Prop :=
  ∀ i, nul_write_index bytes = some i → i < RESPONSE_BUFFER_SIZE

/-- One iteration of the parse loop of
`MagicFolderState::classify_files_batch` (lines 229-253): the batch
member whose category parses out of the response gets
`update_category`, anything else leaves the state alone. -/
def apply_verdict (backing response : String) (st : State) (f : String) : State :=
  match parse_category response.toList (backing ++ "/" ++ f).toList with
  | some c => update_category f c st
  | none => st

/-- `MagicFolderState::classify_files_batch` (lines 203-257) after
the socket exchange: `recvBytes` is what `zmq_recv` returned and
`response` the NUL-terminated buffer contents.  The empty batch
returns immediately (line 204); on `recvBytes ≤ 0` nothing changes
(lines 254-256); otherwise the parse loop runs over the batch. -/
def classify_files_batch (backing : String) (filenames : List String)
    (recvBytes : Int) (response : String) (s : State) : State :=
  if filenames.isEmpty then s
  else if recvBytes > 0 then
    filenames.foldl (apply_verdict backing response) s
  else s

/-! ### Worker loop (lines 105-140), split at its two lock regions -/

/-- The drain of lines 123-126: move the whole FIFO into the worker's
local batch while the `queued_files` markers stay set (line 127). -/
def workerDrain (s : State) : State :=
  { s with
    processing_queue := []
    inflight_batch := s.inflight_batch ++ s.processing_queue }

/-- Lines 130-138: run `classify_files_batch` on the drained batch,
then erase every batch member from `queued_files`. -/
def workerFinish (backing : String) (recvBytes : Int) (response : String)
    (s : State) : State :=
  let s' := classify_files_batch backing s.inflight_batch recvBytes response s
  { s' with
    queued_files := s.inflight_batch.foldl (fun q f => eraseS f q) s'.queued_files
    inflight_batch := [] }

/-! ### FUSE handlers (state-visible parts) -/

/-- The state effect of `magic_create` (lines 672-691) on a successful
create: a non-ignored root file is passed to `add_to_queue`.  A failed
backing `open` returns before touching the state, which coincides with
the identity. -/
def magic_create_state (backing path : String) (s : State) : State :=
  if is_root_file path && !(is_ignored_file (get_filename path)) then
    add_to_queue (get_filename path) (get_real_path backing path) s
  else s

/-- The state effect of `magic_release` (lines 693-716): for a
non-ignored root file, `add_to_queue` when not already hidden, then
`enqueue_for_classification`. -/
def magic_release_state (backing path : String) (s : State) : State :=
  if is_root_file path then
    if !(is_ignored_file (get_filename path)) then
      enqueue_for_classification (get_filename path)
        (if is_hidden (get_filename path) s then s
         else add_to_queue (get_filename path) (get_real_path backing path) s)
    else s
  else s

/-- `magic_unlink` (lines 718-727): delegate `unlink(2)` to the
backing store, propagate `-errno` on failure; the in-memory state is
never touched. -/
def magic_unlink (unlinkRes : Except Nat Unit) (s : State) : Int × State :=
  match unlinkRes with
  | Except.ok _ => (0, s)
  | Except.error e => (-(e : Int), s)

/-- Host error code for "invalid argument". -/
def EINVAL : Int := 22

/-- Result of `magic_rename`: the FUSE return value and whether the
backing-store `rename(2)` was invoked at all. -/
structure RenameOutcome where
  ret : Int
  performed : Bool
deriving DecidableEq

/-- `magic_rename` (lines 751-765): any nonzero kernel flags are
rejected with `-EINVAL` before the backing rename is attempted; with
zero flags the backing rename runs and a failure's errno is propagated
unchanged as `-errno`. -/
def magic_rename (flags : Nat) (renameRes : Except Nat Unit) : RenameOutcome :=
  if flags ≠ 0 then { ret := -EINVAL, performed := false }
  else
    match renameRes with
    | Except.ok _ => { ret := 0, performed := true }
    | Except.error e => { ret := -(e : Int), performed := true }

/-- The root-directory part of `magic_readdir` (lines 488-521): the
backing enumeration filtered by the three skips — `.` and `..`
(line 494), hidden names (line 497), classified names (line 504). -/
def readdir_root_file_entries (s : State) (backing_entries : List String) :
    List String :=
  backing_entries.filter
    (fun n =>
      !(n == ".") && !(n == "..") && !(is_hidden n s) &&
        !((mapLookup n s.file_category_map).isSome))

/-- The full name sequence `magic_readdir` emits for `/`
(lines 464-521): `.` and `..` first (lines 465-466), one entry per
known category (lines 472-486), then the filtered backing entries. -/
def magic_readdir_root (s : State) (backing_entries : List String) :
    List String :=
  "." :: ".." ::
    (s.categories.map Prod.fst ++ readdir_root_file_entries s backing_entries)

/-! ### Trace semantics

The public operations the claims quantify over, as a step relation on
`State`.  `unlink` never touches the in-memory state (see
`magic_unlink`); `drain`/`finish` are the two halves of one worker
iteration. -/

/-- One observable operation. -/
inductive Op where
  | create (path : String)
  | release (path : String)
  | unlink (path : String)
  | drain
  | finish (recvBytes : Int) (response : String)
deriving DecidableEq

/-- Effect of one operation on the state. -/
def step (backing : String) (s : State) : Op → State
  | Op.create p => magic_create_state backing p s
  | Op.release p => magic_release_state backing p s
  | Op.unlink _ => (magic_unlink (Except.ok ()) s).2
  | Op.drain => workerDrain s
  | Op.finish b r => workerFinish backing b r s

/-- Run a sequence of operations. -/
def run (backing : String) (ops : List Op) (s : State) : State :=
  ops.foldl (step backing) s

/-! ### Predicates used by the claims -/

/-- No hidden name has a category assignment: the "Hidden and
Classified are mutually exclusive" part of the three-state
invariant. -/
def VisInv (s : State) : Prop :=
  ∀ f ∈ s.hidden_files, mapLookup f s.file_category_map = none

/-- Every name in the FIFO or in the worker's drained batch still
carries its `queued_files` marker (the spec's "in-queue marker set"
discipline). -/
def queueMarkerInv (s : State) : Prop :=
  ∀ g ∈ s.processing_queue ++ s.inflight_batch, g ∈ s.queued_files

/-- `f` is in none of the Hidden set, the FIFO, the in-flight marker
set, the drained batch, or the file-to-category map. -/
def NeverTracked (f : String) (s : State) : Prop :=
  f ∉ s.hidden_files ∧ f ∉ s.processing_queue ∧ f ∉ s.queued_files ∧
    f ∉ s.inflight_batch ∧ mapLookup f s.file_category_map = none

/-! ## Helper lemmas -/

theorem mem_insertS {x y : String} {s : List String} :
    x ∈ insertS y s ↔ x = y ∨ x ∈ s := by
  unfold insertS
  split
  · rename_i h
    exact ⟨fun hx => Or.inr hx, fun hx => hx.elim (fun e => e ▸ h) id⟩
  · simp [List.mem_cons]

theorem mem_eraseS {x y : String} {s : List String} :
    x ∈ eraseS y s ↔ x ∈ s ∧ x ≠ y := by
  simp [eraseS, List.mem_filter]

theorem mapLookup_mapSet_self (k v : String) (m : List (String × String)) :
    mapLookup k (mapSet k v m) = some v := by
  induction m with
  | nil => simp [mapSet, mapLookup]
  | cons kv rest ih =>
    obtain ⟨k', v'⟩ := kv
    by_cases h : k' = k
    · simp [mapSet, mapLookup, h]
    · simp [mapSet, mapLookup, h, ih]

theorem mapLookup_mapSet_ne {k' k : String} (hk : k' ≠ k) (v : String)
    (m : List (String × String)) :
    mapLookup k' (mapSet k v m) = mapLookup k' m := by
  induction m with
  | nil => simp [mapSet, mapLookup, Ne.symm hk]
  | cons kv rest ih =>
    obtain ⟨k'', v''⟩ := kv
    by_cases h : k'' = k
    · subst h
      simp [mapSet, mapLookup, Ne.symm hk]
    · simp [mapSet, mapLookup, h, ih]

theorem catLookup_catAppend_self (k f : String) (m : List (String × List String)) :
    catLookup k (catAppend k f m) = some ((catLookup k m).getD [] ++ [f]) := by
  induction m with
  | nil => simp [catAppend, catLookup]
  | cons kv rest ih =>
    obtain ⟨k', v⟩ := kv
    by_cases h : k' = k
    · simp [catAppend, catLookup, h]
    · simp [catAppend, catLookup, h, ih]

theorem catLookup_catAppend_ne {k' k : String} (hk : k' ≠ k) (f : String)
    (m : List (String × List String)) :
    catLookup k' (catAppend k f m) = catLookup k' m := by
  induction m with
  | nil => simp [catAppend, catLookup, Ne.symm hk]
  | cons kv rest ih =>
    obtain ⟨k'', v⟩ := kv
    by_cases h : k'' = k
    · subst h
      simp [catAppend, catLookup, Ne.symm hk]
    · simp [catAppend, catLookup, h, ih]

theorem enqueue_hidden_eq (f : String) (s : State) :
    (enqueue_for_classification f s).hidden_files = s.hidden_files := by
  unfold enqueue_for_classification
  split
  · rfl
  · split
    · rfl
    · split
      · rfl
      · rfl

theorem enqueue_map_eq (f : String) (s : State) :
    (enqueue_for_classification f s).file_category_map = s.file_category_map := by
  unfold enqueue_for_classification
  split
  · rfl
  · split
    · rfl
    · split
      · rfl
      · rfl

theorem enqueue_batch_eq (f : String) (s : State) :
    (enqueue_for_classification f s).inflight_batch = s.inflight_batch := by
  unfold enqueue_for_classification
  split
  · rfl
  · split
    · rfl
    · split
      · rfl
      · rfl

theorem enqueue_noop_of_marked (f : String) (s : State)
    (hq : f ∈ s.queued_files) : enqueue_for_classification f s = s := by
  unfold enqueue_for_classification
  split
  · rfl
  · split
    · rfl
    · rw [if_pos]
      exact List.elem_eq_true_of_mem hq

theorem add_to_queue_map_eq (f p : String) (s : State) :
    (add_to_queue f p s).file_category_map = s.file_category_map := by
  unfold add_to_queue
  split <;> rfl

theorem add_to_queue_fifo_eq (f p : String) (s : State) :
    (add_to_queue f p s).processing_queue = s.processing_queue := by
  unfold add_to_queue
  split <;> rfl

theorem add_to_queue_queued_eq (f p : String) (s : State) :
    (add_to_queue f p s).queued_files = s.queued_files := by
  unfold add_to_queue
  split <;> rfl

theorem add_to_queue_batch_eq (f p : String) (s : State) :
    (add_to_queue f p s).inflight_batch = s.inflight_batch := by
  unfold add_to_queue
  split <;> rfl

theorem add_to_queue_mem_hidden {g f : String} (p : String) (s : State)
    (hg : g ∈ (add_to_queue f p s).hidden_files) : g = f ∨ g ∈ s.hidden_files := by
  unfold add_to_queue at hg
  split at hg
  · exact Or.inr hg
  · exact mem_insertS.1 hg

theorem foldl_apply_verdict_fifo_eq (b resp : String) (fns : List String) (s : State) :
    (fns.foldl (apply_verdict b resp) s).processing_queue = s.processing_queue := by
  induction fns generalizing s with
  | nil => rfl
  | cons f rest ih =>
    rw [List.foldl_cons, ih]
    unfold apply_verdict
    split <;> rfl

theorem foldl_apply_verdict_queued_eq (b resp : String) (fns : List String) (s : State) :
    (fns.foldl (apply_verdict b resp) s).queued_files = s.queued_files := by
  induction fns generalizing s with
  | nil => rfl
  | cons f rest ih =>
    rw [List.foldl_cons, ih]
    unfold apply_verdict
    split <;> rfl

theorem foldl_apply_verdict_batch_eq (b resp : String) (fns : List String) (s : State) :
    (fns.foldl (apply_verdict b resp) s).inflight_batch = s.inflight_batch := by
  induction fns generalizing s with
  | nil => rfl
  | cons f rest ih =>
    rw [List.foldl_cons, ih]
    unfold apply_verdict
    split <;> rfl

theorem apply_verdict_VisInv (b resp : String) (st : State) (g : String)
    (h : VisInv st) : VisInv (apply_verdict b resp st g) := by
  unfold apply_verdict
  split
  · intro f hf
    rw [update_category] at hf
    simp only at hf
    obtain ⟨hmem, hne⟩ := mem_eraseS.1 hf
    show mapLookup f (update_category g _ st).file_category_map = none
    rw [update_category]
    simp only
    rw [mapLookup_mapSet_ne hne]
    exact h f hmem
  · exact h

theorem foldl_apply_verdict_VisInv (b resp : String) (fns : List String) (s : State)
    (h : VisInv s) : VisInv (fns.foldl (apply_verdict b resp) s) := by
  induction fns generalizing s with
  | nil => exact h
  | cons f rest ih => exact ih _ (apply_verdict_VisInv b resp s f h)

theorem apply_verdict_preserves_free (b resp : String) (st : State) {f g : String}
    (hne : f ≠ g) (hh : f ∉ st.hidden_files)
    (hm : mapLookup f st.file_category_map = none) :
    f ∉ (apply_verdict b resp st g).hidden_files ∧
      mapLookup f (apply_verdict b resp st g).file_category_map = none := by
  unfold apply_verdict
  split
  · constructor
    · intro hf
      exact hh (mem_eraseS.1 hf).1
    · show mapLookup f (update_category g _ st).file_category_map = none
      rw [update_category]
      simp only
      rw [mapLookup_mapSet_ne hne]
      exact hm
  · exact ⟨hh, hm⟩

theorem foldl_apply_verdict_preserves_free (b resp : String) (fns : List String)
    (s : State) {f : String} (hni : f ∉ fns) (hh : f ∉ s.hidden_files)
    (hm : mapLookup f s.file_category_map = none) :
    f ∉ (fns.foldl (apply_verdict b resp) s).hidden_files ∧
      mapLookup f (fns.foldl (apply_verdict b resp) s).file_category_map = none := by
  induction fns generalizing s with
  | nil => exact ⟨hh, hm⟩
  | cons g rest ih =>
    have hfg : f ≠ g := fun e => hni (e ▸ List.mem_cons_self g rest)
    have hrest : f ∉ rest := fun hr => hni (List.mem_cons_of_mem g hr)
    obtain ⟨h1, h2⟩ := apply_verdict_preserves_free b resp s hfg hh hm
    exact ih _ hrest h1 h2

theorem not_mem_foldl_eraseS_of_not_mem {f : String} (l : List String)
    {q : List String} (hq : f ∉ q) :
    f ∉ l.foldl (fun q g => eraseS g q) q := by
  induction l generalizing q with
  | nil => exact hq
  | cons g rest ih =>
    refine ih ?_
    intro hf
    exact hq (mem_eraseS.1 hf).1

theorem not_mem_foldl_eraseS_of_mem {f : String} {l : List String}
    (q : List String) (hf : f ∈ l) :
    f ∉ l.foldl (fun q g => eraseS g q) q := by
  induction l generalizing q with
  | nil => cases hf
  | cons g rest ih =>
    by_cases hfg : f = g
    · subst hfg
      refine not_mem_foldl_eraseS_of_not_mem rest ?_
      intro hmem
      exact (mem_eraseS.1 hmem).2 rfl
    · exact ih _ ((List.mem_cons.1 hf).resolve_left hfg)

theorem classify_nonpos (b : String) (fns : List String) (r : Int) (resp : String)
    (s : State) (hr : r ≤ 0) : classify_files_batch b fns r resp s = s := by
  unfold classify_files_batch
  split
  · rfl
  · rw [if_neg]
    omega

theorem classify_fifo_eq (b : String) (fns : List String) (r : Int) (resp : String)
    (s : State) :
    (classify_files_batch b fns r resp s).processing_queue = s.processing_queue := by
  unfold classify_files_batch
  split
  · rfl
  · split
    · exact foldl_apply_verdict_fifo_eq b resp fns s
    · rfl

theorem classify_queued_eq (b : String) (fns : List String) (r : Int) (resp : String)
    (s : State) :
    (classify_files_batch b fns r resp s).queued_files = s.queued_files := by
  unfold classify_files_batch
  split
  · rfl
  · split
    · exact foldl_apply_verdict_queued_eq b resp fns s
    · rfl

theorem classify_preserves_free (b : String) (fns : List String) (r : Int)
    (resp : String) (s : State) {f : String} (hni : f ∉ fns)
    (hh : f ∉ s.hidden_files) (hm : mapLookup f s.file_category_map = none) :
    f ∉ (classify_files_batch b fns r resp s).hidden_files ∧
      mapLookup f (classify_files_batch b fns r resp s).file_category_map = none := by
  unfold classify_files_batch
  split
  · exact ⟨hh, hm⟩
  · split
    · exact foldl_apply_verdict_preserves_free b resp fns s hni hh hm
    · exact ⟨hh, hm⟩

theorem add_to_queue_preserves_not_tracked {f g : String} (hne : f ≠ g) (p : String)
    (s : State) (h : NeverTracked f s) : NeverTracked f (add_to_queue g p s) := by
  obtain ⟨hh, hfifo, hqf, hb, hm⟩ := h
  refine ⟨?_, ?_, ?_, ?_, ?_⟩
  · intro hmem
    rcases add_to_queue_mem_hidden p s hmem with e | h1
    · exact hne e
    · exact hh h1
  · rw [add_to_queue_fifo_eq]
    exact hfifo
  · rw [add_to_queue_queued_eq]
    exact hqf
  · rw [add_to_queue_batch_eq]
    exact hb
  · rw [add_to_queue_map_eq]
    exact hm

theorem enqueue_preserves_not_tracked {f g : String} (hne : f ≠ g) (s : State)
    (h : NeverTracked f s) : NeverTracked f (enqueue_for_classification g s) := by
  obtain ⟨hh, hfifo, hqf, hb, hm⟩ := h
  refine ⟨?_, ?_, ?_, ?_, ?_⟩
  · rw [enqueue_hidden_eq]
    exact hh
  · unfold enqueue_for_classification
    split
    · exact hfifo
    · split
      · exact hfifo
      · split
        · exact hfifo
        · show f ∉ s.processing_queue ++ [g]
          intro hmem
          rcases List.mem_append.1 hmem with h1 | h1
          · exact hfifo h1
          · exact hne (List.mem_singleton.1 h1)
  · unfold enqueue_for_classification
    split
    · exact hqf
    · split
      · exact hqf
      · split
        · exact hqf
        · show f ∉ insertS g s.queued_files
          intro hmem
          rcases mem_insertS.1 hmem with e | h1
          · exact hne e
          · exact hqf h1
  · rw [enqueue_batch_eq]
    exact hb
  · rw [enqueue_map_eq]
    exact hm

theorem step_preserves_NeverTracked (backing : String) (s : State) (op : Op)
    {f : String} (hig : is_ignored_file f = true) (h : NeverTracked f s) :
    NeverTracked f (step backing s op) := by
  obtain ⟨hh, hfifo, hqf, hb, hm⟩ := h
  cases op with
  | create p =>
    show NeverTracked f (magic_create_state backing p s)
    unfold magic_create_state
    split
    · rename_i hcond
      have hne : f ≠ get_filename p := by
        intro e
        rw [← e, hig] at hcond
        simp at hcond
      exact add_to_queue_preserves_not_tracked hne _ s ⟨hh, hfifo, hqf, hb, hm⟩
    · exact ⟨hh, hfifo, hqf, hb, hm⟩
  | release p =>
    show NeverTracked f (magic_release_state backing p s)
    unfold magic_release_state
    split
    · split
      · rename_i hcond
        have hne : f ≠ get_filename p := by
          intro e
          rw [← e, hig] at hcond
          simp at hcond
        refine enqueue_preserves_not_tracked hne _ ?_
        split
        · exact ⟨hh, hfifo, hqf, hb, hm⟩
        · exact add_to_queue_preserves_not_tracked hne _ s ⟨hh, hfifo, hqf, hb, hm⟩
      · exact ⟨hh, hfifo, hqf, hb, hm⟩
    · exact ⟨hh, hfifo, hqf, hb, hm⟩
  | unlink p => exact ⟨hh, hfifo, hqf, hb, hm⟩
  | drain =>
    refine ⟨hh, ?_, hqf, ?_, hm⟩
    · show f ∉ ([] : List String)
      simp
    · show f ∉ s.inflight_batch ++ s.processing_queue
      intro hmem
      rcases List.mem_append.1 hmem with h1 | h1
      · exact hb h1
      · exact hfifo h1
  | finish r resp =>
    obtain ⟨hch, hcm⟩ := classify_preserves_free backing s.inflight_batch r resp s hb hh hm
    refine ⟨hch, ?_, ?_, ?_, hcm⟩
    · show f ∉ (classify_files_batch backing s.inflight_batch r resp s).processing_queue
      rw [classify_fifo_eq]
      exact hfifo
    · show f ∉ s.inflight_batch.foldl (fun q g => eraseS g q)
        (classify_files_batch backing s.inflight_batch r resp s).queued_files
      rw [classify_queued_eq]
      exact not_mem_foldl_eraseS_of_not_mem _ hqf
    · show f ∉ ([] : List String)
      simp

/-! ## C1: the root readdir listing -/

/-- C1: a filename is emitted in the root-file portion of
`magic_readdir(/)` iff it is in the backing enumeration, differs from
`.` and `..`, is not Hidden, and has no file-to-category entry; and
the full emission is `.`, `..`, one entry per known category, then
exactly that filtered portion, so the `.`/`..` of the backing
enumeration are never re-emitted. -/
theorem magic_readdir_root_spec (s : State) (backing_entries : List String)
    (F : String) :
    (F ∈ readdir_root_file_entries s backing_entries ↔
      F ∈ backing_entries ∧ F ≠ "." ∧ F ≠ ".." ∧ F ∉ s.hidden_files ∧
        mapLookup F s.file_category_map = none) ∧
    magic_readdir_root s backing_entries =
      "." :: ".." ::
        (s.categories.map Prod.fst ++ readdir_root_file_entries s backing_entries) := by
  constructor
  · simp [readdir_root_file_entries, List.mem_filter, is_hidden, and_assoc]
  · rfl

/-! ## C2: unlink and the Visibility State record -/

/-- C2 counterexample: after `create /tmp1; release /tmp1` the name
`tmp1` is Hidden; a successful `magic_unlink` returns 0 yet `tmp1` is
still in the Hidden set afterwards, contradicting the claim that the
Visibility State record is removed. -/
theorem magic_unlink_keeps_visibility_record :
    (magic_unlink (Except.ok ())
        (run "b" [Op.create "/tmp1", Op.release "/tmp1"] initState)).1 = 0 ∧
      "tmp1" ∈ (magic_unlink (Except.ok ())
        (run "b" [Op.create "/tmp1", Op.release "/tmp1"] initState)).2.hidden_files := by
  decide

/-- C2 amended: `magic_unlink` only delegates to the backing store; it
leaves the in-memory Visibility State completely unchanged, whether
the host unlink succeeds or fails, so the filename stays in whichever
of the Hidden set, category lists and file-to-category map it occupied
and a later classification verdict still applies to it. -/
theorem magic_unlink_state_unchanged (res : Except Nat Unit) (s : State) :
    (magic_unlink res s).2 = s := by
  cases res <;> rfl

/-! ## C3: verdict application is not first-verdict-wins -/

/-- C3 counterexample: with `f` already classified under `C1`,
applying a verdict for `C2` does change the state — the map now says
`C2` and `f` was appended to the `C2` list — refuting
first-verdict-wins at this concrete input. -/
theorem update_category_second_verdict_changes_state :
    mapLookup "f"
        (update_category "f" "C2" (update_category "f" "C1" initState)).file_category_map =
      some "C2" ∧
    "f" ∈ (catLookup "C2"
        (update_category "f" "C2" (update_category "f" "C1" initState)).categories).getD [] ∧
    update_category "f" "C2" (update_category "f" "C1" initState) ≠
      update_category "f" "C1" initState := by
  decide

/-- C3 amended: `update_category` is last-verdict-wins with a stale
append: for a filename currently mapped to `c1`, a verdict for a
different `c2` appends the filename to `c2`'s list, remaps the
file-to-category map to `c2`, and leaves `c1`'s list exactly as it
was (the filename is not removed from it). -/
theorem update_category_last_verdict_wins (s : State) (f c1 c2 : String)
    (_hc : mapLookup f s.file_category_map = some c1) (hne : c1 ≠ c2) :
    mapLookup f (update_category f c2 s).file_category_map = some c2 ∧
    (catLookup c2 (update_category f c2 s).categories).getD [] =
      (catLookup c2 s.categories).getD [] ++ [f] ∧
    catLookup c1 (update_category f c2 s).categories = catLookup c1 s.categories := by
  refine ⟨?_, ?_, ?_⟩
  · exact mapLookup_mapSet_self f c2 s.file_category_map
  · simp [update_category, catLookup_catAppend_self]
  · exact catLookup_catAppend_ne hne f s.categories

/-- C3 amended, witness at a concrete classified state. -/
theorem update_category_last_verdict_wins_witness :
    mapLookup "f"
        (update_category "f" "C2" (update_category "f" "C1" initState)).file_category_map =
      some "C2" ∧
    (catLookup "C2"
        (update_category "f" "C2" (update_category "f" "C1" initState)).categories).getD [] =
      (catLookup "C2" (update_category "f" "C1" initState).categories).getD [] ++ ["f"] ∧
    catLookup "C1" (update_category "f" "C2" (update_category "f" "C1" initState)).categories =
      catLookup "C1" (update_category "f" "C1" initState).categories :=
  update_category_last_verdict_wins (update_category "f" "C1" initState)
    "f" "C1" "C2" (by decide) (by decide)

/-! ## C8: rename flag rejection and error propagation -/

/-- C8: any nonzero kernel `flags` makes `magic_rename` return
`-EINVAL` without invoking the backing-store rename; with zero flags
the backing rename is performed, success returns 0 and a failure's
host errno is propagated unchanged as `-errno`. -/
theorem magic_rename_spec (flags : Nat) (res : Except Nat Unit) :
    (flags ≠ 0 → magic_rename flags res = ⟨-EINVAL, false⟩) ∧
    (flags = 0 →
      (magic_rename flags res).performed = true ∧
      (∀ e : Nat, res = Except.error e → (magic_rename flags res).ret = -(e : Int)) ∧
      (res = Except.ok () → (magic_rename flags res).ret = 0)) := by
  constructor
  · intro h
    simp [magic_rename, h]
  · intro h
    subst h
    cases res with
    | ok u => simp [magic_rename]
    | error e =>
      refine ⟨by simp [magic_rename], ?_, by simp⟩
      intro e' he
      cases he
      simp [magic_rename]

/-- C8 witness: flags = 1 is rejected with `-EINVAL` and no backing
rename; flags = 0 with a failing backing rename (errno 2) propagates
`-2`. -/
theorem magic_rename_spec_witness :
    magic_rename 1 (Except.error 2) = ⟨-EINVAL, false⟩ ∧
      (magic_rename 0 (Except.error 2)).performed = true ∧
      (magic_rename 0 (Except.error 2)).ret = -(2 : Int) :=
  ⟨(magic_rename_spec 1 (Except.error 2)).1 (by decide),
   ((magic_rename_spec 0 (Except.error 2)).2 rfl).1,
   ((magic_rename_spec 0 (Except.error 2)).2 rfl).2.1 2 rfl⟩

/-! ## C9: the NUL-terminator write on the 8192-byte response buffer -/

/-- C9 counterexample: a classifier response of exactly 8192 bytes
makes `zmq_recv` return 8192, so the terminator is written at index
8192 of the 8192-byte buffer — out of bounds. -/
theorem nul_write_out_of_bounds_at_8192 :
    nul_write_index (zmq_recv_bytes 8192) = some 8192 ∧
      ¬ nul_write_in_bounds (zmq_recv_bytes 8192) := by
  constructor
  · decide
  · intro h
    have h8 := h 8192 (by decide)
    simp [RESPONSE_BUFFER_SIZE] at h8

/-- C9 amended: the terminator index equals the full message length
returned by `zmq_recv`, and the write stays inside the 8192-byte
buffer exactly when the response message is shorter than 8192 bytes;
for messages of 8192 bytes or more it is out of bounds. -/
theorem nul_write_in_bounds_iff (msgLen : Nat) (h : 0 < msgLen) :
    nul_write_index (zmq_recv_bytes msgLen) = some msgLen ∧
      (nul_write_in_bounds (zmq_recv_bytes msgLen) ↔ msgLen < RESPONSE_BUFFER_SIZE) := by
  have hidx : nul_write_index (zmq_recv_bytes msgLen) = some msgLen := by
    simp [nul_write_index, zmq_recv_bytes]
    omega
  refine ⟨hidx, ?_, ?_⟩
  · intro hb
    exact hb msgLen hidx
  · intro hlt i hi
    rw [hidx] at hi
    cases hi
    exact hlt

/-- C9 amended, witness: a 3-byte response writes the terminator at
index 3, inside the buffer. -/
theorem nul_write_in_bounds_iff_witness :
    nul_write_index (zmq_recv_bytes 3) = some 3 ∧
      (nul_write_in_bounds (zmq_recv_bytes 3) ↔ 3 < RESPONSE_BUFFER_SIZE) :=
  nul_write_in_bounds_iff 3 (by decide)

/-! ## C10: path resolution strips exactly the first component -/

theorem charFindIdx_append_slash {a : List Char} (h : '/' ∉ a) (rest : List Char) :
    charFindIdx '/' (a ++ '/' :: rest) = some a.length := by
  induction a with
  | nil => simp [charFindIdx]
  | cons x xs ih =>
    have hx : x ≠ '/' := fun e => h (e ▸ List.mem_cons_self x xs)
    have hxs : '/' ∉ xs := fun hm => h (List.mem_cons_of_mem x hm)
    simp [charFindIdx, hx, ih hxs]

/-- C10: for any virtual path `/<a>/<rest>` whose first component `a`
contains no slash — whether or not `a` names a known category —
`get_real_path` discards exactly `a` and resolves to
`<backing>/<rest>`; `rest` may itself contain further slashes (so
`/a/b/c` resolves to `<backing>/b/c`), and no Visibility State is
consulted (`get_real_path` takes none). -/
theorem get_real_path_strips_first_component (backing : String) (a rest : List Char)
    (h : '/' ∉ a) :
    get_real_path backing (String.mk ('/' :: a ++ '/' :: rest)) =
      backing ++ "/" ++ String.mk rest := by
  have hfind : findFrom ('/' :: a ++ '/' :: rest) '/' 1 = some (1 + a.length) := by
    simp [findFrom, charFindIdx_append_slash h]
  have hdrop : ('/' :: a ++ '/' :: rest).drop (1 + a.length + 1) = rest := by
    have : ('/' :: a ++ '/' :: rest) = (('/' :: a) ++ ['/']) ++ rest := by simp
    rw [this]
    have hlen : (('/' :: a) ++ ['/']).length = 1 + a.length + 1 := by
      simp
      omega
    rw [← hlen, List.drop_left]
  show get_real_path backing (String.mk ('/' :: a ++ '/' :: rest)) = _
  unfold get_real_path
  have htl : (String.mk ('/' :: a ++ '/' :: rest)).toList = '/' :: a ++ '/' :: rest := rfl
  rw [htl, hfind]
  show backing ++ "/" ++ String.mk (('/' :: a ++ '/' :: rest).drop (1 + a.length + 1)) =
    backing ++ "/" ++ String.mk rest
  rw [hdrop]

/-- C10 witness: `/Docs/b/c` with backing root `/root` resolves to
`/root/b/c` — only the first component `Docs` is discarded. -/
theorem get_real_path_strips_first_component_witness :
    get_real_path "/root" (String.mk ('/' :: "Docs".toList ++ '/' :: "b/c".toList)) =
      "/root" ++ "/" ++ String.mk "b/c".toList :=
  get_real_path_strips_first_component "/root" "Docs".toList "b/c".toList (by decide)

/-! ## C4: the exactly-one-state invariant -/

/-- C4 counterexample: the reachable sequence create `/f`, release
`/f`, worker drain, verdict `Docs` for `f`, then a second release of
`/f` leaves `f` simultaneously in the Hidden set and in the
file-to-category map, so not every operation sequence preserves the
exactly-one-state invariant. -/
theorem release_after_classify_breaks_invariant :
    "f" ∈ (run "b" [Op.create "/f", Op.release "/f", Op.drain,
        Op.finish 1 "\x7b\"file\": \"b/f\", \"category\": \"Docs\"\x7d",
        Op.release "/f"] initState).hidden_files ∧
      mapLookup "f" (run "b" [Op.create "/f", Op.release "/f", Op.drain,
        Op.finish 1 "\x7b\"file\": \"b/f\", \"category\": \"Docs\"\x7d",
        Op.release "/f"] initState).file_category_map = some "Docs" := by
  decide

/-- C4 amended: the Hidden/Classified exclusion is preserved by every
operation except a create or release of a filename that already has a
file-to-category entry: unlink, worker drain and verdict application
always preserve it, and create/release preserve it whenever the
affected filename is unclassified at that moment.  (The counterexample
shows the unguarded claim fails: such a release re-inserts the name
into Hidden while its map entry remains.) -/
theorem step_preserves_VisInv (backing : String) (s : State) (op : Op)
    (hinv : VisInv s)
    (hguard : ∀ p, op = Op.create p ∨ op = Op.release p →
      mapLookup (get_filename p) s.file_category_map = none) :
    VisInv (step backing s op) := by
  cases op with
  | create p =>
    have hg := hguard p (Or.inl rfl)
    show VisInv (magic_create_state backing p s)
    unfold magic_create_state
    split
    · intro f hf
      rw [add_to_queue_map_eq]
      rcases add_to_queue_mem_hidden _ s hf with rfl | hmem
      · exact hg
      · exact hinv f hmem
    · exact hinv
  | release p =>
    have hg := hguard p (Or.inr rfl)
    show VisInv (magic_release_state backing p s)
    unfold magic_release_state
    split
    · split
      · intro f hf
        rw [enqueue_hidden_eq] at hf
        rw [enqueue_map_eq]
        by_cases hh : is_hidden (get_filename p) s = true
        · rw [if_pos hh] at hf ⊢
          exact hinv f hf
        · rw [if_neg hh] at hf ⊢
          rw [add_to_queue_map_eq]
          rcases add_to_queue_mem_hidden _ s hf with rfl | hmem
          · exact hg
          · exact hinv f hmem
      · exact hinv
    · exact hinv
  | unlink p => exact hinv
  | drain =>
    intro f hf
    exact hinv f hf
  | finish r resp =>
    have h' : VisInv (classify_files_batch backing s.inflight_batch r resp s) := by
      unfold classify_files_batch
      split
      · exact hinv
      · split
        · exact foldl_apply_verdict_VisInv backing resp s.inflight_batch s hinv
        · exact hinv
    intro f hf
    exact h' f hf

/-- C4 amended, witness: one release step from the empty state
preserves the exclusion invariant. -/
theorem step_preserves_VisInv_witness :
    VisInv (step "b" initState (Op.release "/x")) :=
  step_preserves_VisInv "b" initState (Op.release "/x")
    (by intro f hf; simp [initState] at hf)
    (by intro p hp; rfl)

/-! ## C5: enqueue idempotence during the batch window -/

/-- C5: starting from a state whose FIFO and drained batch only hold
marked names and where `f` is unmarked, non-ignored and unclassified,
the first enqueue puts exactly one occurrence of `f` in the FIFO, any
number of further enqueues before the marker is cleared (both before
and after the worker drains) leave the state exactly as it was, and
the next drained batch contains exactly one occurrence of `f`. -/
theorem enqueue_idempotent_while_inflight (s : State) (f : String) (n : Nat)
    (hinv : queueMarkerInv s) (hq : f ∉ s.queued_files)
    (hig : is_ignored_file f = false)
    (hcl : mapLookup f s.file_category_map = none) :
    Nat.iterate (enqueue_for_classification f) n (enqueue_for_classification f s) =
      enqueue_for_classification f s ∧
    (enqueue_for_classification f s).processing_queue.count f = 1 ∧
    (workerDrain (Nat.iterate (enqueue_for_classification f) n
        (enqueue_for_classification f s))).inflight_batch.count f = 1 ∧
    enqueue_for_classification f (workerDrain (enqueue_for_classification f s)) =
      workerDrain (enqueue_for_classification f s) := by
  have hc1 : s.queued_files.contains f = false :=
    Bool.eq_false_iff.mpr (fun hc => hq (List.mem_of_elem_eq_true hc))
  have hs1 : enqueue_for_classification f s =
      { s with
        processing_queue := s.processing_queue ++ [f]
        queued_files := insertS f s.queued_files } := by
    simp [enqueue_for_classification, hig, hcl, hc1, hq]
  have hfs1 : f ∈ (enqueue_for_classification f s).queued_files := by
    rw [hs1]
    exact mem_insertS.2 (Or.inl rfl)
  have hcount0 : s.processing_queue.count f = 0 :=
    List.count_eq_zero.2 (fun hmem => hq (hinv f (List.mem_append_left _ hmem)))
  have hbatch0 : s.inflight_batch.count f = 0 :=
    List.count_eq_zero.2 (fun hmem => hq (hinv f (List.mem_append_right _ hmem)))
  have hiter : Nat.iterate (enqueue_for_classification f) n
      (enqueue_for_classification f s) = enqueue_for_classification f s := by
    induction n with
    | zero => rfl
    | succ m ih =>
      rw [Function.iterate_succ_apply,
        enqueue_noop_of_marked f (enqueue_for_classification f s) hfs1, ih]
  refine ⟨hiter, ?_, ?_, ?_⟩
  · rw [hs1]
    simp [List.count_append, hcount0]
  · rw [hiter, hs1]
    simp [workerDrain, List.count_append, hcount0, hbatch0]
  · exact enqueue_noop_of_marked f _ hfs1

/-- C5 witness: from the empty state, one enqueue of `a` followed by
two redundant enqueues and a drain yields exactly one occurrence. -/
theorem enqueue_idempotent_while_inflight_witness :
    Nat.iterate (enqueue_for_classification "a") 2
        (enqueue_for_classification "a" initState) =
      enqueue_for_classification "a" initState ∧
    (enqueue_for_classification "a" initState).processing_queue.count "a" = 1 ∧
    (workerDrain (Nat.iterate (enqueue_for_classification "a") 2
        (enqueue_for_classification "a" initState))).inflight_batch.count "a" = 1 ∧
    enqueue_for_classification "a"
        (workerDrain (enqueue_for_classification "a" initState)) =
      workerDrain (enqueue_for_classification "a" initState) :=
  enqueue_idempotent_while_inflight initState "a" 2
    (by intro g hg; simp [initState] at hg)
    (by simp [initState])
    (by decide)
    rfl

/-! ## C6: ignored filenames are never tracked -/

/-- C6: a filename equal to `.DS_Store` or starting with `._` is, after
every reachable sequence of operations from the empty state, in none
of the Hidden set, the classification FIFO, the in-flight marker set,
the drained batch, or the file-to-category map: ignored names never
become Hidden or Classified. -/
theorem ignored_never_tracked (backing : String) (ops : List Op) (f : String)
    (hig : is_ignored_file f = true) :
    NeverTracked f (run backing ops initState) := by
  have hstep : ∀ s, NeverTracked f s → NeverTracked f (run backing ops s) := by
    induction ops with
    | nil => intro s hs; exact hs
    | cons op rest ih =>
      intro s hs
      exact ih _ (step_preserves_NeverTracked backing s op hig hs)
  refine hstep initState ⟨?_, ?_, ?_, ?_, rfl⟩ <;> simp [initState]

/-- C6 witness: `.DS_Store` is untracked after a concrete operation
sequence that creates it, releases other files, and runs the worker. -/
theorem ignored_never_tracked_witness :
    NeverTracked ".DS_Store" (run "b" [Op.create "/.DS_Store", Op.release "/a",
      Op.drain, Op.finish 1 "x", Op.unlink "/a"] initState) :=
  ignored_never_tracked "b" [Op.create "/.DS_Store", Op.release "/a",
    Op.drain, Op.finish 1 "x", Op.unlink "/a"] ".DS_Store" (by decide)

/-! ## C7: failed RPC leaves visibility untouched, markers cleared -/

/-- C7: when the receive fails (`recvBytes ≤ 0`, covering send
failure, receive failure and timeout), finishing the batch changes no
visibility state — Hidden set, category lists and file-to-category map
are exactly as before — and, failed or not, every batch member's
in-flight marker is cleared once the batch returns. -/
theorem failed_batch_abandoned (backing : String) (s : State) (recvBytes : Int)
    (response : String) :
    (recvBytes ≤ 0 →
      (workerFinish backing recvBytes response s).hidden_files = s.hidden_files ∧
      (workerFinish backing recvBytes response s).categories = s.categories ∧
      (workerFinish backing recvBytes response s).file_category_map =
        s.file_category_map) ∧
    (∀ f ∈ s.inflight_batch,
      f ∉ (workerFinish backing recvBytes response s).queued_files) ∧
    (workerFinish backing recvBytes response s).inflight_batch = [] := by
  refine ⟨?_, ?_, rfl⟩
  · intro hr
    have hc := classify_nonpos backing s.inflight_batch recvBytes response s hr
    refine ⟨?_, ?_, ?_⟩
    · show (classify_files_batch backing s.inflight_batch recvBytes response
        s).hidden_files = s.hidden_files
      rw [hc]
    · show (classify_files_batch backing s.inflight_batch recvBytes response
        s).categories = s.categories
      rw [hc]
    · show (classify_files_batch backing s.inflight_batch recvBytes response
        s).file_category_map = s.file_category_map
      rw [hc]
  · intro f hf
    show f ∉ s.inflight_batch.foldl (fun q g => eraseS g q)
      (classify_files_batch backing s.inflight_batch recvBytes response s).queued_files
    exact not_mem_foldl_eraseS_of_mem _ hf

/-- C7 witness: a concrete hidden, marked, drained file `a` with a
timed-out receive (`recvBytes = -1`) stays Hidden, no category
appears, and its marker is cleared. -/
theorem failed_batch_abandoned_witness :
    ((workerFinish "b" (-1) ""
        (⟨[], ["a"], [], [], [], ["a"], ["a"]⟩ : State)).hidden_files =
      (⟨[], ["a"], [], [], [], ["a"], ["a"]⟩ : State).hidden_files ∧
     (workerFinish "b" (-1) ""
        (⟨[], ["a"], [], [], [], ["a"], ["a"]⟩ : State)).categories =
      (⟨[], ["a"], [], [], [], ["a"], ["a"]⟩ : State).categories ∧
     (workerFinish "b" (-1) ""
        (⟨[], ["a"], [], [], [], ["a"], ["a"]⟩ : State)).file_category_map =
      (⟨[], ["a"], [], [], [], ["a"], ["a"]⟩ : State).file_category_map) ∧
    "a" ∉ (workerFinish "b" (-1) ""
        (⟨[], ["a"], [], [], [], ["a"], ["a"]⟩ : State)).queued_files ∧
    (workerFinish "b" (-1) ""
        (⟨[], ["a"], [], [], [], ["a"], ["a"]⟩ : State)).inflight_batch = [] :=
  ⟨(failed_batch_abandoned "b" (⟨[], ["a"], [], [], [], ["a"], ["a"]⟩ : State)
      (-1) "").1 (by norm_num),
   (failed_batch_abandoned "b" (⟨[], ["a"], [], [], [], ["a"], ["a"]⟩ : State)
      (-1) "").2.1 "a" (by simp),
   (failed_batch_abandoned "b" (⟨[], ["a"], [], [], [], ["a"], ["a"]⟩ : State)
      (-1) "").2.2⟩

end MagicFolder
